import Mathlib

/-!
Verification development for src/text_to_audio_converter.py.

The program converts an arbitrary byte file into a PCM WAV container and
back.  The encoder (text_to_wav) base64-encodes the payload, adds the
header ENCODED_TEXT:, and writes each frame byte as one audio sample,
scaled according to the chosen bit depth.  The decoder (wav_to_text)
inverts the scaling, searches for the header and base64-decodes the rest.

The shallow embedding below works at the boundary of the wave-module
collaborator: a WAV file is represented by its sample width together with
the raw frame-data byte string (the bytes passed to writeframes and the
bytes returned by readframes).  Bytes are Nat values below 256; Python
integers are Int.  Python floor division (//) by the positive constants
256 and 16777216 coincides with Euclidean division, so it is embedded as
Int division; Python %% on a positive modulus is embedded as Int.emod.
-/

set_option maxRecDepth 10000

/-- The header bytes of ENCODED_TEXT: used by both functions. -/
def MAGIC : List Nat := [69, 78, 67, 79, 68, 69, 68, 95, 84, 69, 88, 84, 58]

/-- Character of the standard base64 alphabet at index v, as used by
base64.b64encode (A-Z, a-z, 0-9, plus, slash).  The encoder only ever
indexes with v below 64. -/
def b64chr (v : Nat) : Nat :=
  if v < 26 then 65 + v
  else if v < 52 then 97 + (v - 26)
  else if v < 62 then 48 + (v - 52)
  else if v = 62 then 43
  else 47

/-- Embedding of base64.b64encode: bytes are consumed three at a time and
emitted as four alphabet characters, the final group padded with the byte
61 (the pad character). -/
def b64encode : List Nat → List Nat
  | [] => []
  | [a] => [b64chr (a / 4), b64chr (a % 4 * 16), 61, 61]
  | [a, b] => [b64chr (a / 4), b64chr (a % 4 * 16 + b / 16), b64chr (b % 16 * 4), 61]
  | a :: b :: c :: rest =>
      b64chr (a / 4) :: b64chr (a % 4 * 16 + b / 16) ::
      b64chr (b % 16 * 4 + c / 64) :: b64chr (c % 64) :: b64encode rest

/-- Value of a byte in the base64 alphabet, none for every byte outside
the alphabet (the table lookup of binascii). -/
def b64val (c : Nat) : Option Nat :=
  if 65 ≤ c ∧ c ≤ 90 then some (c - 65)
  else if 97 ≤ c ∧ c ≤ 122 then some (c - 97 + 26)
  else if 48 ≤ c ∧ c ≤ 57 then some (c - 48 + 52)
  else if c = 43 then some 62
  else if c = 47 then some 63
  else none

/-- Bytes produced from a complete group of four sextets. -/
def emitQuad (a b c d : Nat) : List Nat :=
  [a * 4 + b / 16, b % 16 * 16 + c / 4, c % 4 * 64 + d]

/-- Byte produced from two sextets followed by double padding. -/
def emit2 (a b : Nat) : List Nat := [a * 4 + b / 16]

/-- Bytes produced from three sextets followed by padding. -/
def emit3 (a b c : Nat) : List Nat := [a * 4 + b / 16, b % 16 * 16 + c / 4]

/-- Embedding of base64.b64decode with validate left at False, i.e. the
legacy mode of binascii.a2b_base64: bytes outside the alphabet are
discarded; a pad byte with two sextets pending needs a second pad to
finish, with three sextets pending it finishes at once; everything after
a finishing pad is ignored; leftover sextets at the end of input are an
error (Incorrect padding).  quad holds the pending sextets of the current
group, pads the number of pad bytes seen since the last data byte. -/
def a2bLoop : List Nat → List Nat → Nat → Except Unit (List Nat)
  | [], quad, _ =>
    match quad with
    | [] => Except.ok []
    | _ => Except.error ()
  | c :: rest, quad, pads =>
    if c = 61 then
      match quad with
      | [a, b] =>
        if 1 ≤ pads then Except.ok (emit2 a b)
        else a2bLoop rest [a, b] (pads + 1)
      | [a, b, d] => Except.ok (emit3 a b d)
      | q => a2bLoop rest q pads
    else
      match b64val c with
      | none => a2bLoop rest quad pads
      | some v =>
        match quad with
        | [a, b, d] =>
          match a2bLoop rest [] 0 with
          | Except.ok t => Except.ok (emitQuad a b d v ++ t)
          | Except.error e => Except.error e
        | q => a2bLoop rest (q ++ [v]) 0

/-- Embedding of base64.b64decode applied to a byte string. -/
def b64decodePy (s : List Nat) : Except Unit (List Nat) := a2bLoop s [] 0

/-- Bytes written by struct.pack with format <h for the scaled sample of
byte b at 16-bit depth: two little-endian bytes of the two-complement
representation of (b - 128) * 256. -/
def pack16 (b : Nat) : List Nat :=
  [((((b : Int) - 128) * 256).emod 65536).toNat % 256,
   ((((b : Int) - 128) * 256).emod 65536).toNat / 256]

/-- Bytes written by struct.pack with format <i for the scaled sample of
byte b at 32-bit depth: four little-endian bytes of the two-complement
representation of (b - 128) * 16777216. -/
def pack32 (b : Nat) : List Nat :=
  [((((b : Int) - 128) * 16777216).emod 4294967296).toNat % 256,
   ((((b : Int) - 128) * 16777216).emod 4294967296).toNat / 256 % 256,
   ((((b : Int) - 128) * 16777216).emod 4294967296).toNat / 65536 % 256,
   ((((b : Int) - 128) * 16777216).emod 4294967296).toNat / 16777216]

/-- Bytes written to the WAV for one frame byte, following the if chain of
the encoder loop: depth 8 packs the byte itself, depth 16 and 32 pack the
scaled sample, any other depth writes nothing because no branch matches. -/
def packSample (bitsPerSample b : Nat) : List Nat :=
  if bitsPerSample = 8 then [b]
  else if bitsPerSample = 16 then pack16 b
  else if bitsPerSample = 32 then pack32 b
  else []

/-- Frame built by the encoder: header plus base64 text of the payload. -/
def frameBytes (payload : List Nat) : List Nat := MAGIC ++ b64encode payload

/-- Outcome of running text_to_wav.  The wrote case records the sample
width configured via setsampwidth and the raw frame data passed to
writeframes; opening the wave file in write mode creates the file, so
wrote means an output file exists.  waveError is the wave.Error raised by
setsampwidth when bitsPerSample / 8 lies outside 1..4. -/
inductive EncodeResult where
  | wrote (sampwidth : Nat) (data : List Nat)
  | waveError
deriving DecidableEq, Repr

/-- Embedding of text_to_wav over the payload bytes read from the input
file: base64-encode, add the header, set sampwidth to bitsPerSample / 8,
then write the per-byte samples.  No validation of bitsPerSample happens
beyond the range check inside wave.setsampwidth. -/
def text_to_wav (payload : List Nat) (bitsPerSample : Nat) : EncodeResult :=
  let sw := bitsPerSample / 8
  if 1 ≤ sw ∧ sw ≤ 4 then
    EncodeResult.wrote sw ((frameBytes payload).flatMap (packSample bitsPerSample))
  else EncodeResult.waveError

/-- Signed value read by struct.unpack with format <h from two raw bytes. -/
def unpack16 (b0 b1 : Nat) : Int :=
  if b0 + 256 * b1 < 32768 then ((b0 + 256 * b1 : Nat) : Int)
  else ((b0 + 256 * b1 : Nat) : Int) - 65536

/-- Signed value read by struct.unpack with format <i from four raw bytes. -/
def unpack32 (b0 b1 b2 b3 : Nat) : Int :=
  if b0 + 256 * b1 + 65536 * b2 + 16777216 * b3 < 2147483648 then
    ((b0 + 256 * b1 + 65536 * b2 + 16777216 * b3 : Nat) : Int)
  else ((b0 + 256 * b1 + 65536 * b2 + 16777216 * b3 : Nat) : Int) - 4294967296

/-- Embedding of min(255, max(0, v)) from the decoder. -/
def clampByte (v : Int) : Nat := (min 255 (max 0 v)).toNat

/-- Decoder loop for sample width 1: struct.unpack with format B returns
each raw byte unchanged. -/
def decodeWidth1 (raw : List Nat) : List Nat := raw

/-- Decoder loop for sample width 2: consecutive pairs of raw bytes are
unpacked as signed 16-bit samples and mapped through
min(255, max(0, value // 256 + 128)); a trailing incomplete pair is
skipped by the i + 2 <= len guard. -/
def decodeWidth2 : List Nat → List Nat
  | b0 :: b1 :: rest => clampByte (unpack16 b0 b1 / 256 + 128) :: decodeWidth2 rest
  | _ => []

/-- Decoder loop for sample width 4: consecutive groups of four raw bytes
are unpacked as signed 32-bit samples and mapped through
min(255, max(0, value // 16777216 + 128)); a trailing incomplete group is
skipped by the i + 4 <= len guard. -/
def decodeWidth4 : List Nat → List Nat
  | b0 :: b1 :: b2 :: b3 :: rest =>
      clampByte (unpack32 b0 b1 b2 b3 / 16777216 + 128) :: decodeWidth4 rest
  | _ => []

/-- Index of the first occurrence of needle in hay, as bytes.find of
Python returns it (none standing for -1); the membership test header in
decoded_bytes holds exactly when this is some index. -/
def findSub (needle : List Nat) : List Nat → Option Nat
  | [] => if needle.isPrefixOf [] then some 0 else none
  | c :: t =>
    if needle.isPrefixOf (c :: t) then some 0
    else (findSub needle t).map (fun i => i + 1)

/-- Outcome of running wav_to_text.  ok d means the decoded bytes d were
written to the output file; notEncoded is the message branch when the
header is absent (no file written); corruptPayload is the except branch
catching the base64 failure (no file written, the write sits after the
decode inside the try); crash is an exception the function does not
handle. -/
inductive DecodeResult where
  | ok (data : List Nat)
  | notEncoded
  | corruptPayload
  | crash
deriving DecidableEq, Repr

/-- Base64 stage of the decoder: b64decode inside try, the handler turning
any failure into the error message (no output written). -/
def payloadOutcome (encodedData : List Nat) : DecodeResult :=
  match b64decodePy encodedData with
  | Except.ok d => DecodeResult.ok d
  | Except.error _ => DecodeResult.corruptPayload

/-- Header search and extraction of the decoder: if the header occurs, the
bytes after its first occurrence are base64-decoded, otherwise the
function reports that the file contains no encoded text. -/
def processDecoded (decodedBytes : List Nat) : DecodeResult :=
  match findSub MAGIC decodedBytes with
  | some i => payloadOutcome (decodedBytes.drop (i + MAGIC.length))
  | none => DecodeResult.notEncoded

/-- Embedding of wav_to_text over the container parameters and raw frame
data returned by the wave reader.  The channel count is read into a local
variable that the function never uses.  For a sample width other than
1, 2 or 4 no branch assigns decoded_bytes, so the membership test that
follows raises UnboundLocalError: an unhandled crash. -/
def wav_to_text (_nchannels sampwidth : Nat) (raw : List Nat) : DecodeResult :=
  if sampwidth = 1 then processDecoded (decodeWidth1 raw)
  else if sampwidth = 2 then processDecoded (decodeWidth2 raw)
  else if sampwidth = 4 then processDecoded (decodeWidth4 raw)
  else DecodeResult.crash

/-- Inverse-scaled byte stream of a WAV, the decoded_bytes value of the
decoder for the widths it assigns. -/
def inverseScaled (sampwidth : Nat) (raw : List Nat) : List Nat :=
  if sampwidth = 1 then decodeWidth1 raw
  else if sampwidth = 2 then decodeWidth2 raw
  else if sampwidth = 4 then decodeWidth4 raw
  else []

/-- True exactly for the outcome in which the decoder writes the output
file. -/
def writesOutputFile : DecodeResult → Bool
  | DecodeResult.ok _ => true
  | _ => false

/-- Modelled from the spec wording of claim C5: the byte the spec says the
decoder computes at width 2, clamp(0,255, sample div 256 + 128) with
integer division truncating toward zero (Int.tdiv). -/
def specTruncDecode16 (sample : Int) : Nat := clampByte (sample.tdiv 256 + 128)

/-- Induction principle following the three-byte grouping of b64encode. -/
def chunk3Ind {P : List Nat → Prop} (h0 : P []) (h1 : ∀ a, P [a])
    (h2 : ∀ a b, P [a, b])
    (h3 : ∀ a b c rest, P rest → P (a :: b :: c :: rest)) : ∀ x, P x
  | [] => h0
  | [a] => h1 a
  | [a, b] => h2 a b
  | a :: b :: c :: rest => h3 a b c rest (chunk3Ind h0 h1 h2 h3 rest)

/-- Induction principle following the two-byte grouping of decodeWidth2. -/
def chunk2Ind {P : List Nat → Prop} (h0 : P []) (h1 : ∀ a, P [a])
    (h2 : ∀ a b rest, P rest → P (a :: b :: rest)) : ∀ x, P x
  | [] => h0
  | [a] => h1 a
  | a :: b :: rest => h2 a b rest (chunk2Ind h0 h1 h2 rest)

lemma b64val_b64chr : ∀ s, s < 64 → b64val (b64chr s) = some s := by decide

lemma b64chr_ne_pad : ∀ s, s < 64 → b64chr s ≠ 61 := by decide

lemma b64chr_lt (v : Nat) : b64chr v < 256 := by
  unfold b64chr
  split_ifs <;> omega

lemma a2bLoop_data_nil {c v : Nat} (hne : c ≠ 61) (hv : b64val c = some v)
    (rest : List Nat) (p : Nat) :
    a2bLoop (c :: rest) [] p = a2bLoop rest [v] 0 := by
  simp [a2bLoop, hne, hv]

lemma a2bLoop_data_one {c v : Nat} (hne : c ≠ 61) (hv : b64val c = some v)
    (rest : List Nat) (a p : Nat) :
    a2bLoop (c :: rest) [a] p = a2bLoop rest [a, v] 0 := by
  simp [a2bLoop, hne, hv]

lemma a2bLoop_data_two {c v : Nat} (hne : c ≠ 61) (hv : b64val c = some v)
    (rest : List Nat) (a b p : Nat) :
    a2bLoop (c :: rest) [a, b] p = a2bLoop rest [a, b, v] 0 := by
  simp [a2bLoop, hne, hv]

lemma a2bLoop_data_three_ok {c v : Nat} (hne : c ≠ 61) (hv : b64val c = some v)
    {rest t : List Nat} (hrest : a2bLoop rest [] 0 = Except.ok t)
    (a b d p : Nat) :
    a2bLoop (c :: rest) [a, b, d] p = Except.ok (emitQuad a b d v ++ t) := by
  simp [a2bLoop, hne, hv, hrest]

lemma a2bLoop_data_three_err {c v : Nat} (hne : c ≠ 61) (hv : b64val c = some v)
    {rest : List Nat} {e : Unit} (hrest : a2bLoop rest [] 0 = Except.error e)
    (a b d p : Nat) :
    a2bLoop (c :: rest) [a, b, d] p = Except.error e := by
  simp [a2bLoop, hne, hv, hrest]

lemma a2bLoop_pad2_first (rest : List Nat) (a b : Nat) :
    a2bLoop (61 :: rest) [a, b] 0 = a2bLoop rest [a, b] 1 := by
  simp [a2bLoop]

lemma a2bLoop_pad2_done (rest : List Nat) (a b p : Nat) (hp : 1 ≤ p) :
    a2bLoop (61 :: rest) [a, b] p = Except.ok (emit2 a b) := by
  simp [a2bLoop, hp]

lemma a2bLoop_pad3_done (rest : List Nat) (a b d p : Nat) :
    a2bLoop (61 :: rest) [a, b, d] p = Except.ok (emit3 a b d) := by
  simp [a2bLoop]

/-- Decoding inverts encoding: the core base64 round trip. -/
theorem a2b_b64encode : ∀ x : List Nat, (∀ b ∈ x, b < 256) →
    a2bLoop (b64encode x) [] 0 = Except.ok x := by
  refine chunk3Ind ?_ ?_ ?_ ?_
  · intro _
    rfl
  · intro a h
    have ha : a < 256 := h a (by simp)
    show a2bLoop [b64chr (a / 4), b64chr (a % 4 * 16), 61, 61] [] 0 = Except.ok [a]
    rw [a2bLoop_data_nil (b64chr_ne_pad _ (by omega)) (b64val_b64chr _ (by omega)),
        a2bLoop_data_one (b64chr_ne_pad _ (by omega)) (b64val_b64chr _ (by omega)),
        a2bLoop_pad2_first,
        a2bLoop_pad2_done _ _ _ _ (by omega)]
    simp only [emit2, Except.ok.injEq, List.cons.injEq, and_true]
    omega
  · intro a b h
    have ha : a < 256 := h a (by simp)
    have hb : b < 256 := h b (by simp)
    show a2bLoop
        [b64chr (a / 4), b64chr (a % 4 * 16 + b / 16), b64chr (b % 16 * 4), 61] [] 0 =
      Except.ok [a, b]
    rw [a2bLoop_data_nil (b64chr_ne_pad _ (by omega)) (b64val_b64chr _ (by omega)),
        a2bLoop_data_one (b64chr_ne_pad _ (by omega)) (b64val_b64chr _ (by omega)),
        a2bLoop_data_two (b64chr_ne_pad _ (by omega)) (b64val_b64chr _ (by omega)),
        a2bLoop_pad3_done]
    simp only [emit3, Except.ok.injEq, List.cons.injEq, and_true]
    omega
  · intro a b c rest ih h
    have ha : a < 256 := h a (by simp)
    have hb : b < 256 := h b (by simp)
    have hc : c < 256 := h c (by simp)
    have hrest : a2bLoop (b64encode rest) [] 0 = Except.ok rest :=
      ih (fun y hy => h y (by simp [hy]))
    show a2bLoop
        (b64chr (a / 4) :: b64chr (a % 4 * 16 + b / 16) ::
          b64chr (b % 16 * 4 + c / 64) :: b64chr (c % 64) :: b64encode rest) [] 0 =
      Except.ok (a :: b :: c :: rest)
    rw [a2bLoop_data_nil (b64chr_ne_pad _ (by omega)) (b64val_b64chr _ (by omega)),
        a2bLoop_data_one (b64chr_ne_pad _ (by omega)) (b64val_b64chr _ (by omega)),
        a2bLoop_data_two (b64chr_ne_pad _ (by omega)) (b64val_b64chr _ (by omega)),
        a2bLoop_data_three_ok (b64chr_ne_pad _ (by omega)) (b64val_b64chr _ (by omega)) hrest]
    simp only [emitQuad, List.cons_append, List.nil_append, Except.ok.injEq, List.cons.injEq]
    refine ⟨by omega, by omega, by omega, trivial⟩

lemma b64encode_ne_nil (x : List Nat) (h : x ≠ []) : b64encode x ≠ [] := by
  rcases x with _ | ⟨a, _ | ⟨b, _ | ⟨c, t⟩⟩⟩
  · exact absurd rfl h
  all_goals simp [b64encode]

/-- Dropping the final byte of a base64 encoding always leaves a group of
three pending sextets or an unfinished double padding, which the legacy
decoder rejects as incorrect padding. -/
theorem a2b_b64encode_dropLast : ∀ x : List Nat, x ≠ [] → (∀ b ∈ x, b < 256) →
    a2bLoop ((b64encode x).dropLast) [] 0 = Except.error () := by
  refine chunk3Ind ?_ ?_ ?_ ?_
  · intro hne _
    exact absurd rfl hne
  · intro a _ h
    have ha : a < 256 := h a (by simp)
    show a2bLoop [b64chr (a / 4), b64chr (a % 4 * 16), 61] [] 0 = Except.error ()
    rw [a2bLoop_data_nil (b64chr_ne_pad _ (by omega)) (b64val_b64chr _ (by omega)),
        a2bLoop_data_one (b64chr_ne_pad _ (by omega)) (b64val_b64chr _ (by omega)),
        a2bLoop_pad2_first]
    rfl
  · intro a b _ h
    have ha : a < 256 := h a (by simp)
    have hb : b < 256 := h b (by simp)
    show a2bLoop [b64chr (a / 4), b64chr (a % 4 * 16 + b / 16), b64chr (b % 16 * 4)] [] 0 =
      Except.error ()
    rw [a2bLoop_data_nil (b64chr_ne_pad _ (by omega)) (b64val_b64chr _ (by omega)),
        a2bLoop_data_one (b64chr_ne_pad _ (by omega)) (b64val_b64chr _ (by omega)),
        a2bLoop_data_two (b64chr_ne_pad _ (by omega)) (b64val_b64chr _ (by omega))]
    rfl
  · intro a b c rest ih _ h
    have ha : a < 256 := h a (by simp)
    have hb : b < 256 := h b (by simp)
    have hc : c < 256 := h c (by simp)
    by_cases hr : rest = []
    · subst hr
      show a2bLoop [b64chr (a / 4), b64chr (a % 4 * 16 + b / 16),
          b64chr (b % 16 * 4 + c / 64)] [] 0 = Except.error ()
      rw [a2bLoop_data_nil (b64chr_ne_pad _ (by omega)) (b64val_b64chr _ (by omega)),
          a2bLoop_data_one (b64chr_ne_pad _ (by omega)) (b64val_b64chr _ (by omega)),
          a2bLoop_data_two (b64chr_ne_pad _ (by omega)) (b64val_b64chr _ (by omega))]
      rfl
    · have hrest : a2bLoop ((b64encode rest).dropLast) [] 0 = Except.error () :=
        ih hr (fun y hy => h y (by simp [hy]))
      have happ : b64encode (a :: b :: c :: rest) =
          [b64chr (a / 4), b64chr (a % 4 * 16 + b / 16),
           b64chr (b % 16 * 4 + c / 64), b64chr (c % 64)] ++ b64encode rest := rfl
      have hdl : (b64encode (a :: b :: c :: rest)).dropLast =
          b64chr (a / 4) :: b64chr (a % 4 * 16 + b / 16) ::
          b64chr (b % 16 * 4 + c / 64) :: b64chr (c % 64) :: (b64encode rest).dropLast := by
        rw [happ, List.dropLast_append_of_ne_nil _ (b64encode_ne_nil rest hr)]
        rfl
      rw [hdl,
          a2bLoop_data_nil (b64chr_ne_pad _ (by omega)) (b64val_b64chr _ (by omega)),
          a2bLoop_data_one (b64chr_ne_pad _ (by omega)) (b64val_b64chr _ (by omega)),
          a2bLoop_data_two (b64chr_ne_pad _ (by omega)) (b64val_b64chr _ (by omega)),
          a2bLoop_data_three_err (b64chr_ne_pad _ (by omega)) (b64val_b64chr _ (by omega)) hrest]

lemma isPrefixOf_append_self (l t : List Nat) : l.isPrefixOf (l ++ t) = true := by
  induction l with
  | nil => simp [List.isPrefixOf]
  | cons a as ih => simp [List.isPrefixOf, ih]

lemma findSub_of_isPrefixOf (n h : List Nat) (hp : n.isPrefixOf h = true) :
    findSub n h = some 0 := by
  cases h with
  | nil => simp [findSub, hp]
  | cons c t => simp [findSub, hp]

/-- findSub returns the first index at which the needle occurs. -/
lemma findSub_first (n : List Nat) : ∀ (h : List Nat) (i : Nat),
    n.isPrefixOf (h.drop i) = true →
    (∀ j, j < i → n.isPrefixOf (h.drop j) = false) →
    findSub n h = some i := by
  intro h
  induction h with
  | nil =>
    intro i hp hmin
    cases i with
    | zero =>
      simp only [List.drop_nil] at hp
      simp [findSub, hp]
    | succ m =>
      have hm := hmin 0 (Nat.succ_pos m)
      simp only [List.drop_nil] at hp hm
      rw [hp] at hm
      exact absurd hm (by simp)
  | cons c t ih =>
    intro i hp hmin
    cases i with
    | zero =>
      simp only [List.drop_zero] at hp
      simp [findSub, hp]
    | succ m =>
      have h0 : n.isPrefixOf (c :: t) = false := by
        have := hmin 0 (Nat.succ_pos m)
        simpa using this
      have hp2 : n.isPrefixOf (t.drop m) = true := by simpa using hp
      have hmin2 : ∀ j, j < m → n.isPrefixOf (t.drop j) = false := by
        intro j hj
        have := hmin (j + 1) (by omega)
        simpa using this
      simp [findSub, h0, ih m hp2 hmin2]

lemma processDecoded_frame (x : List Nat) (hx : ∀ b ∈ x, b < 256) :
    processDecoded (MAGIC ++ b64encode x) = DecodeResult.ok x := by
  unfold processDecoded
  rw [findSub_of_isPrefixOf _ _ (isPrefixOf_append_self _ _)]
  simp only [Nat.zero_add, List.drop_left]
  unfold payloadOutcome b64decodePy
  rw [a2b_b64encode x hx]

lemma processDecoded_truncated (x : List Nat) (hne : x ≠ []) (hx : ∀ b ∈ x, b < 256) :
    processDecoded (MAGIC ++ (b64encode x).dropLast) = DecodeResult.corruptPayload := by
  unfold processDecoded
  rw [findSub_of_isPrefixOf _ _ (isPrefixOf_append_self _ _)]
  simp only [Nat.zero_add, List.drop_left]
  unfold payloadOutcome b64decodePy
  rw [a2b_b64encode_dropLast x hne hx]

lemma processDecoded_ne_crash (db : List Nat) : processDecoded db ≠ DecodeResult.crash := by
  unfold processDecoded payloadOutcome
  cases hf : findSub MAGIC db with
  | none => simp
  | some i =>
    cases hb : b64decodePy (db.drop (i + MAGIC.length)) with
    | ok d => simp [hb]
    | error e => simp [hb]

lemma decodeWidth2_pack16 : ∀ b, b < 256 → decodeWidth2 (pack16 b) = [b] := by decide

lemma decodeWidth4_pack32 : ∀ b, b < 256 → decodeWidth4 (pack32 b) = [b] := by decide

lemma decodeWidth2_pack16_append (b : Nat) (hb : b < 256) (t : List Nat) :
    decodeWidth2 (pack16 b ++ t) = b :: decodeWidth2 t := by
  have h2 : clampByte (unpack16 (((((b : Int) - 128) * 256).emod 65536).toNat % 256)
      (((((b : Int) - 128) * 256).emod 65536).toNat / 256) / 256 + 128) = b := by
    have h := decodeWidth2_pack16 b hb
    simpa [pack16, decodeWidth2] using h
  simp [pack16, decodeWidth2, h2]

lemma decodeWidth4_pack32_append (b : Nat) (hb : b < 256) (t : List Nat) :
    decodeWidth4 (pack32 b ++ t) = b :: decodeWidth4 t := by
  have h2 : clampByte (unpack32 (((((b : Int) - 128) * 16777216).emod 4294967296).toNat % 256)
      (((((b : Int) - 128) * 16777216).emod 4294967296).toNat / 256 % 256)
      (((((b : Int) - 128) * 16777216).emod 4294967296).toNat / 65536 % 256)
      (((((b : Int) - 128) * 16777216).emod 4294967296).toNat / 16777216) / 16777216 + 128) =
      b := by
    have h := decodeWidth4_pack32 b hb
    simpa [pack32, decodeWidth4] using h
  simp [pack32, decodeWidth4, h2]

lemma decodeWidth2_flatMap : ∀ x : List Nat, (∀ b ∈ x, b < 256) →
    decodeWidth2 (x.flatMap pack16) = x := by
  intro x
  induction x with
  | nil => intro _; rfl
  | cons b t ih =>
    intro h
    rw [List.flatMap_cons, decodeWidth2_pack16_append b (h b (by simp)),
        ih (fun y hy => h y (by simp [hy]))]

lemma decodeWidth4_flatMap : ∀ x : List Nat, (∀ b ∈ x, b < 256) →
    decodeWidth4 (x.flatMap pack32) = x := by
  intro x
  induction x with
  | nil => intro _; rfl
  | cons b t ih =>
    intro h
    rw [List.flatMap_cons, decodeWidth4_pack32_append b (h b (by simp)),
        ih (fun y hy => h y (by simp [hy]))]

lemma flatMap_singleton_id (x : List Nat) : x.flatMap (fun b => [b]) = x := by simp

lemma b64encode_lt : ∀ x : List Nat, ∀ y ∈ b64encode x, y < 256 := by
  refine chunk3Ind ?_ ?_ ?_ ?_
  · intro y hy
    simp [b64encode] at hy
  · intro a y hy
    simp [b64encode] at hy
    rcases hy with rfl | rfl | rfl
    · exact b64chr_lt _
    · exact b64chr_lt _
    · omega
  · intro a b y hy
    simp [b64encode] at hy
    rcases hy with rfl | rfl | rfl | rfl
    · exact b64chr_lt _
    · exact b64chr_lt _
    · exact b64chr_lt _
    · omega
  · intro a b c rest ih y hy
    simp only [b64encode, List.mem_cons] at hy
    rcases hy with rfl | rfl | rfl | rfl | hy
    · exact b64chr_lt _
    · exact b64chr_lt _
    · exact b64chr_lt _
    · exact b64chr_lt _
    · exact ih y hy

lemma frameBytes_lt (x : List Nat) : ∀ y ∈ frameBytes x, y < 256 := by
  intro y hy
  rw [frameBytes, List.mem_append] at hy
  rcases hy with hy | hy
  · have : ∀ z ∈ MAGIC, z < 256 := by decide
    exact this y hy
  · exact b64encode_lt x y hy

lemma decodeWidth2_append : ∀ s : List Nat, s.length % 2 = 0 → ∀ t,
    decodeWidth2 (s ++ t) = decodeWidth2 s ++ decodeWidth2 t := by
  refine chunk2Ind ?_ ?_ ?_
  · intro _ t
    rfl
  · intro a hlen _
    simp at hlen
  · intro a b rest ih hlen t
    have : rest.length % 2 = 0 := by
      simp only [List.length_cons] at hlen
      omega
    simp [decodeWidth2, ih this t]

lemma packSample_eight : packSample 8 = fun b => [b] := by
  funext b
  simp [packSample]

lemma packSample_sixteen : packSample 16 = pack16 := by
  funext b
  simp [packSample]

lemma packSample_thirtytwo : packSample 32 = pack32 := by
  funext b
  simp [packSample]

/-- C1: for every byte sequence x and every depth in 8, 16, 32, decoding
the WAV data produced by encoding x at that depth recovers exactly x. -/
theorem claim1_roundtrip (x : List Nat) (hx : ∀ b ∈ x, b < 256) (depth : Nat)
    (hd : depth = 8 ∨ depth = 16 ∨ depth = 32) (sw : Nat) (data : List Nat)
    (henc : text_to_wav x depth = EncodeResult.wrote sw data) (nch : Nat) :
    wav_to_text nch sw data = DecodeResult.ok x := by
  have hframe : ∀ b ∈ frameBytes x, b < 256 := frameBytes_lt x
  rcases hd with rfl | rfl | rfl
  · simp [text_to_wav] at henc
    obtain ⟨h1, h2⟩ := henc
    subst h1
    subst h2
    rw [packSample_eight, flatMap_singleton_id]
    simp only [wav_to_text, if_pos rfl]
    show processDecoded (MAGIC ++ b64encode x) = DecodeResult.ok x
    exact processDecoded_frame x hx
  · simp [text_to_wav] at henc
    obtain ⟨h1, h2⟩ := henc
    subst h1
    subst h2
    rw [packSample_sixteen]
    simp only [wav_to_text]
    norm_num
    rw [decodeWidth2_flatMap (frameBytes x) hframe]
    exact processDecoded_frame x hx
  · simp [text_to_wav] at henc
    obtain ⟨h1, h2⟩ := henc
    subst h1
    subst h2
    rw [packSample_thirtytwo]
    simp only [wav_to_text]
    norm_num
    rw [decodeWidth4_flatMap (frameBytes x) hframe]
    exact processDecoded_frame x hx

/-- Witness for C1 at the payload Hello and depth 16. -/
theorem claim1_roundtrip_witness :
    wav_to_text 1 2 ((frameBytes [72, 101, 108, 108, 111]).flatMap (packSample 16)) =
      DecodeResult.ok [72, 101, 108, 108, 111] :=
  claim1_roundtrip [72, 101, 108, 108, 111] (by decide) 16 (Or.inr (Or.inl rfl)) 2
    ((frameBytes [72, 101, 108, 108, 111]).flatMap (packSample 16)) (by decide) 1

/-- C2: for every byte value b the scaling of each depth is exactly
inverted by the decoder, including the 32-bit multiply by 16777216
followed by floor division; verified exhaustively over all 256 values. -/
theorem claim2_scaling_exact (b : Nat) (hb : b < 256) :
    packSample 8 b = [b]
    ∧ decodeWidth1 [b] = [b]
    ∧ decodeWidth2 (pack16 b) = [b]
    ∧ decodeWidth4 (pack32 b) = [b]
    ∧ ((b : Int) - 128) * 16777216 / 16777216 + 128 = (b : Int) := by
  revert b
  decide

/-- Witness for C2 at byte value 200. -/
theorem claim2_scaling_exact_witness :
    (200 : Nat) < 256
    ∧ (packSample 8 200 = [200]
       ∧ decodeWidth1 [200] = [200]
       ∧ decodeWidth2 (pack16 200) = [200]
       ∧ decodeWidth4 (pack32 200) = [200]
       ∧ ((200 : Int) - 128) * 16777216 / 16777216 + 128 = (200 : Int)) :=
  ⟨by decide, claim2_scaling_exact 200 (by decide)⟩

/-- C3: the encoder performs no bit depth validation.  At depth 12 it
raises nothing and writes a WAV file with sample width 1 and no frames;
the claimed UnsupportedBitDepth failure does not exist in the code. -/
theorem claim3_no_bit_depth_validation (payload : List Nat) :
    text_to_wav payload 12 = EncodeResult.wrote 1 [] := by
  have hps : packSample 12 = fun _ => ([] : List Nat) := by
    funext b
    simp [packSample]
  have hfm : ∀ l : List Nat, (l.flatMap fun _ => ([] : List Nat)) = [] := by
    intro l
    induction l with
    | nil => rfl
    | cons a t ih => simp [ih]
  simp [text_to_wav, hps, hfm]

/-- C4: a WAV with sample width 3 (24-bit PCM) reaches the membership test
with decoded_bytes never assigned, an unhandled UnboundLocalError, not the
claimed NotEncoded outcome. -/
theorem claim4_decoder_crashes_on_width3 :
    wav_to_text 1 3 [0, 0, 0] = DecodeResult.crash := rfl

/-- C5 counterexample: at the 16-bit sample -1 (raw bytes 255, 255) the
code, which uses Python floor division, recovers byte 127, while the
formula of the claim with division truncating toward zero gives 128. -/
theorem claim5_counterexample :
    unpack16 255 255 = -1
    ∧ decodeWidth2 [255, 255] = [127]
    ∧ specTruncDecode16 (unpack16 255 255) = 128 := by decide

/-- C5 amended: the decoder recovers the byte as
clamp(0,255, sample // 256 + 128) with floor division (toward minus
infinity), and for every in-range sample the value before clamping
already lies in 0..255, so the clamp never alters it; likewise at width 4
with divisor 16777216. -/
theorem claim5_amended (b0 b1 b2 b3 : Nat) (h0 : b0 < 256) (h1 : b1 < 256)
    (h2 : b2 < 256) (h3 : b3 < 256) :
    decodeWidth2 [b0, b1] = [(unpack16 b0 b1 / 256 + 128).toNat]
    ∧ 0 ≤ unpack16 b0 b1 / 256 + 128
    ∧ unpack16 b0 b1 / 256 + 128 ≤ 255
    ∧ decodeWidth4 [b0, b1, b2, b3] = [(unpack32 b0 b1 b2 b3 / 16777216 + 128).toNat]
    ∧ 0 ≤ unpack32 b0 b1 b2 b3 / 16777216 + 128
    ∧ unpack32 b0 b1 b2 b3 / 16777216 + 128 ≤ 255 := by
  have h16 : -32768 ≤ unpack16 b0 b1 ∧ unpack16 b0 b1 ≤ 32767 := by
    unfold unpack16
    split <;> omega
  have h32 : -2147483648 ≤ unpack32 b0 b1 b2 b3 ∧ unpack32 b0 b1 b2 b3 ≤ 2147483647 := by
    unfold unpack32
    split <;> omega
  refine ⟨?_, by omega, by omega, ?_, by omega, by omega⟩
  · simp only [decodeWidth2, clampByte, List.cons.injEq, and_true]
    omega
  · simp only [decodeWidth4, clampByte, List.cons.injEq, and_true]
    omega

/-- Witness for C5 amended at the raw bytes 1, 255, 2, 254. -/
theorem claim5_amended_witness :
    decodeWidth2 [1, 255] = [(unpack16 1 255 / 256 + 128).toNat]
    ∧ 0 ≤ unpack16 1 255 / 256 + 128
    ∧ unpack16 1 255 / 256 + 128 ≤ 255
    ∧ decodeWidth4 [1, 255, 2, 254] = [(unpack32 1 255 2 254 / 16777216 + 128).toNat]
    ∧ 0 ≤ unpack32 1 255 2 254 / 16777216 + 128
    ∧ unpack32 1 255 2 254 / 16777216 + 128 ≤ 255 :=
  claim5_amended 1 255 2 254 (by decide) (by decide) (by decide) (by decide)

/-- C6 counterexample: the suffix 33, 33, 33 after the header is not valid
base64, yet b64decode with validate False discards the three bytes and
returns the empty string, so the decoder writes an empty output file
instead of failing with CorruptPayload. -/
theorem claim6_counterexample :
    findSub MAGIC (MAGIC ++ [33, 33, 33]) = some 0
    ∧ payloadOutcome [33, 33, 33] = DecodeResult.ok []
    ∧ wav_to_text 1 1 (MAGIC ++ [33, 33, 33]) = DecodeResult.ok []
    ∧ writesOutputFile (wav_to_text 1 1 (MAGIC ++ [33, 33, 33])) = true := by decide

/-- C6 amended: when the bytes after the header are a base64 encoding
truncated by its final byte (breaking the padding), decoding fails in the
except branch, reported as the corrupt payload message, and no output
file is written; a suffix of bytes outside the alphabet, however, is
silently discarded rather than rejected. -/
theorem claim6_amended (x : List Nat) (hne : x ≠ []) (hx : ∀ b ∈ x, b < 256) :
    wav_to_text 1 1 (MAGIC ++ (b64encode x).dropLast) = DecodeResult.corruptPayload
    ∧ writesOutputFile (wav_to_text 1 1 (MAGIC ++ (b64encode x).dropLast)) = false := by
  have h : wav_to_text 1 1 (MAGIC ++ (b64encode x).dropLast) = DecodeResult.corruptPayload := by
    simp only [wav_to_text, if_pos rfl]
    exact processDecoded_truncated x hne hx
  exact ⟨h, by rw [h]; rfl⟩

/-- Witness for C6 amended at the payload consisting of byte 72. -/
theorem claim6_amended_witness :
    wav_to_text 1 1 (MAGIC ++ (b64encode [72]).dropLast) = DecodeResult.corruptPayload
    ∧ writesOutputFile (wav_to_text 1 1 (MAGIC ++ (b64encode [72]).dropLast)) = false :=
  claim6_amended [72] (by decide) (by decide)

/-- C7: when the inverse-scaled byte stream of a readable WAV (width 1, 2
or 4) does not contain the header, the decoder reports that the file
holds no encoded text and writes no output file. -/
theorem claim7_not_encoded (nch sw : Nat) (raw : List Nat)
    (hsw : sw = 1 ∨ sw = 2 ∨ sw = 4)
    (hmagic : findSub MAGIC (inverseScaled sw raw) = none) :
    wav_to_text nch sw raw = DecodeResult.notEncoded
    ∧ writesOutputFile (wav_to_text nch sw raw) = false := by
  rcases hsw with rfl | rfl | rfl <;>
    · simp only [inverseScaled] at hmagic
      norm_num at hmagic
      simp [wav_to_text, processDecoded, hmagic, writesOutputFile]

/-- Witness for C7 at width 2 with empty frame data. -/
theorem claim7_not_encoded_witness :
    wav_to_text 1 2 [] = DecodeResult.notEncoded
    ∧ writesOutputFile (wav_to_text 1 2 []) = false :=
  claim7_not_encoded 1 2 [] (Or.inr (Or.inl rfl)) (by decide)

/-- C8: when the header occurs at first position i (and again later), the
decoder base64-decodes exactly the bytes after that first occurrence. -/
theorem claim8_first_occurrence (db : List Nat) (i k : Nat)
    (hpre : MAGIC.isPrefixOf (db.drop i) = true)
    (hmin : ∀ j, j < i → MAGIC.isPrefixOf (db.drop j) = false)
    (_hik : i < k) (_hk : MAGIC.isPrefixOf (db.drop k) = true) :
    wav_to_text 1 1 db = payloadOutcome (db.drop (i + MAGIC.length)) := by
  have hfind := findSub_first MAGIC db i hpre hmin
  simp [wav_to_text, decodeWidth1, processDecoded, hfind]

/-- Witness for C8 on a stream holding the header twice. -/
theorem claim8_first_occurrence_witness :
    wav_to_text 1 1 (MAGIC ++ MAGIC) =
      payloadOutcome ((MAGIC ++ MAGIC).drop (0 + MAGIC.length)) :=
  claim8_first_occurrence (MAGIC ++ MAGIC) 0 13 (by decide)
    (fun j hj => absurd hj (Nat.not_lt_zero j)) (by decide) (by decide)

/-- C9: encoding the payload Hello at depth 16 yields the frame
ENCODED_TEXT:SGVsbG8= and decoding its WAV data recovers Hello. -/
theorem claim9_hello :
    frameBytes [72, 101, 108, 108, 111] =
      [69, 78, 67, 79, 68, 69, 68, 95, 84, 69, 88, 84, 58,
       83, 71, 86, 115, 98, 71, 56, 61]
    ∧ text_to_wav [72, 101, 108, 108, 111] 16 =
        EncodeResult.wrote 2 ((frameBytes [72, 101, 108, 108, 111]).flatMap (packSample 16))
    ∧ inverseScaled 2 ((frameBytes [72, 101, 108, 108, 111]).flatMap (packSample 16)) =
        frameBytes [72, 101, 108, 108, 111]
    ∧ wav_to_text 1 2 ((frameBytes [72, 101, 108, 108, 111]).flatMap (packSample 16)) =
        DecodeResult.ok [72, 101, 108, 108, 111] := by decide

/-- C10: the decoder never uses the channel count it reads, every sample
is decoded independently of how samples group into audio frames, and a
width 2 stream is never rejected. -/
theorem claim10_channels_ignored (nch nch2 sw : Nat) (raw s t : List Nat)
    (hs : s.length % 2 = 0) :
    wav_to_text nch sw raw = wav_to_text nch2 sw raw
    ∧ decodeWidth2 (s ++ t) = decodeWidth2 s ++ decodeWidth2 t
    ∧ wav_to_text nch 2 raw ≠ DecodeResult.crash := by
  refine ⟨rfl, decodeWidth2_append s hs t, ?_⟩
  simp only [wav_to_text]
  norm_num
  exact processDecoded_ne_crash _

/-- Witness for C10 on a stereo-style split of four raw bytes. -/
theorem claim10_channels_ignored_witness :
    wav_to_text 3 2 [0, 1] = wav_to_text 7 2 [0, 1]
    ∧ decodeWidth2 ([5, 6] ++ [7, 8]) = decodeWidth2 [5, 6] ++ decodeWidth2 [7, 8]
    ∧ wav_to_text 3 2 [0, 1] ≠ DecodeResult.crash :=
  claim10_channels_ignored 3 7 2 [0, 1] [5, 6] [7, 8] (by decide)

